import Mathlib

/-!
Verification of the Tortillas test harness (`tortillas` Python package).

This file gives a shallow embedding of the parts of the code base that the
checked properties speak about:

* `escape_ansi` from `tortillas/utils.py` (byte-level ANSI stripping);
* `LogParser.split_by_pattern` and `LogParser.parse` from `tortillas/log_parser.py`;
* `InterruptWatchdog.parse_interrupt`, `match_registers`, `search_interrupt`
  and `wait_until` from `tortillas/qemu_interface.py`;
* `TestResult` (`_set_status`, `add_errors`, `check_expect_stdout`,
  `check_exit_codes`) and `LogAnalyzer.analyze` from `tortillas/log_analyzer.py`;
* `thread_callback` from `tortillas/test_runner.py` against the `TestResult`
  class of `tortillas/test_result.py`.

Python strings are modelled as `List Char`, byte strings as `List Nat`,
dictionaries as association lists built in insertion order.
-/

/-- Shorthand turning a Lean string literal into the `List Char`
representation used for Python strings throughout this file. -/
def str (s : String) : List Char := s.toList

/-- Python's whitespace class for ASCII input (the set stripped by
`str.strip()` and matched by `\s`). -/
def isPySpace (c : Char) : Bool :=
  c = ' ' ∨ c = '\t' ∨ c = '\n' ∨ c = '\x0b' ∨ c = '\x0c' ∨ c = '\r'

/-- Python `s.strip()` (no argument): remove whitespace from both ends. -/
def pyStrip (s : List Char) : List Char :=
  ((s.dropWhile isPySpace).reverse.dropWhile isPySpace).reverse

/-- Python `sub in hay` substring containment on strings. -/
def containsSub (hay sub : List Char) : Bool :=
  if sub.isPrefixOf hay then true
  else
    match hay with
    | [] => false
    | _ :: t => containsSub t sub

/-- Python `line.strip('\n')` as used on interrupt-log lines: remove newline
characters from both ends of the line. -/
def stripNl (s : List Char) : List Char :=
  ((s.dropWhile (· = '\n')).reverse.dropWhile (· = '\n')).reverse

/-!
## `escape_ansi` (`tortillas/utils.py`, lines 54-73)

The Python code substitutes the empty string for every match of the regex
`ESC ( Fe-byte | CSI parameter* intermediate* final )` over a byte string.
The character classes below are exactly the byte ranges of that regex:
the Fe class is `0x40-0x5A` together with `0x5C-0x5F` (everything from
`0x40` to `0x5F` except CSI `0x5B`), parameter bytes are `0x30-0x3F`,
intermediate bytes are `0x20-0x2F`, final bytes are `0x40-0x7E`.  The
classes are pairwise disjoint, so the greedy scan needs no backtracking
and `re.sub`'s left-to-right non-overlapping replacement is one
left-to-right scan.  `stripGo` carries the list length as fuel so that the
scan, which restarts after the end of each removed escape sequence, stays
structurally recursive; every step consumes at least one byte per unit of
fuel, so `l.length` fuel is always enough (`stripGo_fuel`).
-/

/-- A 7-bit C1 Fe byte other than CSI. -/
def isFeB (b : Nat) : Bool := decide ((64 ≤ b ∧ b ≤ 90) ∨ (92 ≤ b ∧ b ≤ 95))

/-- CSI parameter byte. -/
def isParamB (b : Nat) : Bool := decide (48 ≤ b ∧ b ≤ 63)

/-- CSI intermediate byte. -/
def isInterB (b : Nat) : Bool := decide (32 ≤ b ∧ b ≤ 47)

/-- CSI final byte. -/
def isFinalB (b : Nat) : Bool := decide (64 ≤ b ∧ b ≤ 126)

/-- After `ESC [`: consume parameter bytes, intermediate bytes and a final
byte, returning the remainder of the input, or `none` when no complete CSI
sequence is present. -/
def csiTail (l : List Nat) : Option (List Nat) :=
  match (l.dropWhile isParamB).dropWhile isInterB with
  | [] => none
  | b :: rest => if isFinalB b then some rest else none

/-- After an `ESC` byte: consume the rest of an ANSI escape sequence
(either a single Fe byte, or a full CSI sequence), returning the remainder
of the input. -/
def seqTail : List Nat → Option (List Nat)
  | [] => none
  | b :: rest =>
      if isFeB b then some rest
      else if b = 91 then csiTail rest
      else none

theorem seqTail_cons (b : Nat) (rest : List Nat) :
    seqTail (b :: rest) =
      if isFeB b then some rest
      else if b = 91 then csiTail rest
      else none := rfl

theorem dropWhile_length_le {α : Type} (p : α → Bool) :
    ∀ l : List α, (l.dropWhile p).length ≤ l.length := by
  intro l
  induction l with
  | nil => simp
  | cons a t ih =>
      by_cases h : p a
      · rw [List.dropWhile_cons_of_pos h]
        exact Nat.le_trans ih (by simp)
      · rw [List.dropWhile_cons_of_neg h]

theorem dropWhile_isSuffix {α : Type} (p : α → Bool) :
    ∀ l : List α, l.dropWhile p <:+ l := by
  intro l
  induction l with
  | nil => simp
  | cons a t ih =>
      by_cases h : p a
      · rw [List.dropWhile_cons_of_pos h]
        exact ih.trans ⟨[a], rfl⟩
      · rw [List.dropWhile_cons_of_neg h]

theorem csiTail_length {l r : List Nat} (h : csiTail l = some r) :
    r.length < l.length := by
  unfold csiTail at h
  rcases hm : (l.dropWhile isParamB).dropWhile isInterB with _ | ⟨b, rest⟩
  · rw [hm] at h; cases h
  · rw [hm] at h
    dsimp only at h
    split_ifs at h with hf
    · injection h with h
      subst h
      have h1 : (b :: rest).length ≤ (l.dropWhile isParamB).length := by
        rw [← hm]; exact dropWhile_length_le _ _
      have h2 : (l.dropWhile isParamB).length ≤ l.length :=
        dropWhile_length_le _ _
      simp only [List.length_cons] at h1
      omega

theorem csiTail_suffix {l r : List Nat} (h : csiTail l = some r) : r <:+ l := by
  unfold csiTail at h
  rcases hm : (l.dropWhile isParamB).dropWhile isInterB with _ | ⟨b, rest⟩
  · rw [hm] at h; cases h
  · rw [hm] at h
    dsimp only at h
    split_ifs at h with hf
    · injection h with h
      subst h
      have h1 : (b :: rest) <:+ l.dropWhile isParamB := by
        rw [← hm]; exact dropWhile_isSuffix _ _
      have h2 : l.dropWhile isParamB <:+ l := dropWhile_isSuffix _ _
      exact (List.suffix_cons b rest).trans (h1.trans h2)

theorem seqTail_length {l r : List Nat} (h : seqTail l = some r) :
    r.length < l.length := by
  match l with
  | [] => cases h
  | b :: rest =>
    rw [seqTail_cons] at h
    split_ifs at h with hf hb
    · injection h with h; subst h; simp
    · have := csiTail_length h
      simp only [List.length_cons]
      omega

theorem seqTail_suffix {l r : List Nat} (h : seqTail l = some r) : r <:+ l := by
  match l with
  | [] => cases h
  | b :: rest =>
    rw [seqTail_cons] at h
    split_ifs at h with hf hb
    · injection h with h; subst h; exact ⟨[b], rfl⟩
    · exact (csiTail_suffix h).trans ⟨[b], rfl⟩

/-- The scan of `re.sub` for the ANSI pattern, with explicit fuel. -/
def stripGo : Nat → List Nat → List Nat
  | 0, l => l
  | _ + 1, [] => []
  | fuel + 1, c :: rest =>
      if c = 27 then
        match seqTail rest with
        | some r => stripGo fuel r
        | none => 27 :: stripGo fuel rest
      else c :: stripGo fuel rest

theorem stripGo_succ_esc (f : Nat) (rest : List Nat) :
    stripGo (f + 1) (27 :: rest) =
      match seqTail rest with
      | some r => stripGo f r
      | none => 27 :: stripGo f rest := by
  simp [stripGo]

theorem stripGo_succ_ne (f : Nat) (c : Nat) (rest : List Nat) (hc : c ≠ 27) :
    stripGo (f + 1) (c :: rest) = c :: stripGo f rest := by
  simp [stripGo, hc]

/-- Model of `escape_ansi` from `tortillas/utils.py`: remove all 7-bit C1 ANSI
escape sequences from a byte string. -/
def escape_ansi (l : List Nat) : List Nat := stripGo l.length l

theorem stripGo_fuel :
    ∀ f g l, l.length ≤ f → l.length ≤ g → stripGo f l = stripGo g l := by
  intro f
  induction f with
  | zero =>
      intro g l hf _
      have : l = [] := List.length_eq_zero.mp (Nat.le_zero.mp hf)
      subst this
      cases g <;> rfl
  | succ f ih =>
      intro g l hf hg
      match l with
      | [] => cases g <;> rfl
      | c :: rest =>
        match g with
        | 0 => exact absurd hg (by simp)
        | g + 1 =>
          by_cases hc : c = 27
          · subst hc
            rw [stripGo_succ_esc, stripGo_succ_esc]
            rcases hs : seqTail rest with _ | r
            · simp only [hs]
              have hr : rest.length ≤ f := by simp at hf; omega
              have hr' : rest.length ≤ g := by simp at hg; omega
              rw [ih g rest hr hr']
            · simp only [hs]
              have hlen := seqTail_length hs
              have hr : r.length ≤ f := by simp at hf; omega
              have hr' : r.length ≤ g := by simp at hg; omega
              rw [ih g r hr hr']
          · rw [stripGo_succ_ne f c rest hc, stripGo_succ_ne g c rest hc]
            have hr : rest.length ≤ f := by simp at hf; omega
            have hr' : rest.length ≤ g := by simp at hg; omega
            rw [ih g rest hr hr']

theorem escape_ansi_cons_ne (c : Nat) (l : List Nat) (hc : c ≠ 27) :
    escape_ansi (c :: l) = c :: escape_ansi l := by
  simp only [escape_ansi, List.length_cons]
  exact stripGo_succ_ne l.length c l hc

theorem escape_ansi_cons_esc (l : List Nat) :
    escape_ansi (27 :: l) =
      match seqTail l with
      | some r => escape_ansi r
      | none => 27 :: escape_ansi l := by
  simp only [escape_ansi, List.length_cons]
  rw [stripGo_succ_esc]
  rcases hs : seqTail l with _ | r
  · simp only [hs]
  · simp only [hs]
    have := seqTail_length hs
    exact stripGo_fuel l.length r.length r (by omega) le_rfl

theorem escape_ansi_noEsc {l : List Nat} (h : ∀ c ∈ l, c ≠ 27) :
    escape_ansi l = l := by
  induction l with
  | nil => rfl
  | cons c rest ih =>
      have hc : c ≠ 27 := h c (by simp)
      rw [escape_ansi_cons_ne c rest hc, ih (fun x hx => h x (by simp [hx]))]

/-- C3, counterexample: the ANSI stripper is not idempotent.  On the byte
string `1B 1B 40 5B 41` (`ESC ESC @ [ A`) the first pass removes the Fe
sequence `ESC @`, leaving `1B 5B 41` (`ESC [ A`), which the second pass
removes as a CSI sequence, so `strip (strip x) ≠ strip x`. -/
theorem escape_ansi_not_idempotent :
    escape_ansi (escape_ansi [27, 27, 64, 91, 65]) ≠
      escape_ansi [27, 27, 64, 91, 65] := by decide

/-- C3, amended: the ANSI stripper is idempotent on every byte string that
contains at most one `ESC` (`0x1B`) byte; full idempotence fails (see the
counterexample), because removing a sequence can bring a previously
unmatched `ESC` together with the tail of the string. -/
theorem escape_ansi_idempotent_of_single_esc :
    ∀ l : List Nat, l.count 27 ≤ 1 →
      escape_ansi (escape_ansi l) = escape_ansi l := by
  intro l h
  induction l with
  | nil => rfl
  | cons c rest ih =>
      by_cases hc : c = 27
      · subst hc
        have hrest : rest.count 27 = 0 := by
          rw [List.count_cons] at h
          simp at h
          omega
        have noEscRest : ∀ x ∈ rest, x ≠ 27 := by
          intro x hx
          intro hx27
          subst hx27
          exact absurd (List.count_pos_iff.mpr hx) (by omega)
        rw [escape_ansi_cons_esc]
        rcases hs : seqTail rest with _ | r
        · simp only
          rw [escape_ansi_noEsc noEscRest]
          rw [escape_ansi_cons_esc]
          simp only [hs]
          rw [escape_ansi_noEsc noEscRest]
        · simp only
          have hr : ∀ x ∈ r, x ≠ 27 :=
            fun x hx => noEscRest x ((seqTail_suffix hs).subset hx)
          rw [escape_ansi_noEsc hr, escape_ansi_noEsc hr]
      · have hcount : rest.count 27 ≤ 1 := by
          rw [List.count_cons] at h
          omega
        rw [escape_ansi_cons_ne c rest hc, escape_ansi_cons_ne c _ hc,
          ih hcount]

/-- Witness for the amended C3 theorem at the concrete input `1B 40`
(`ESC @`), which contains a single `ESC` byte. -/
theorem escape_ansi_idempotent_of_single_esc_witness :
    ([27, 64] : List Nat).count 27 ≤ 1 ∧
      escape_ansi (escape_ansi [27, 64]) = escape_ansi [27, 64] :=
  ⟨by decide, escape_ansi_idempotent_of_single_esc [27, 64] (by decide)⟩

/-!
## `LogParser` (`tortillas/log_parser.py`)

`split_by_pattern` is the verbose regex

    ( \[UPPER_TAG\] | KERNEL PANIC:␣ ) ( lazy body up to the next tag, a
                                         KERNEL PANIC marker, or EOF )

iterated with `finditer` over the ANSI-stripped, decoded trace.  The tag
alternatives and the body boundary are deterministic (the involved
character classes are disjoint), so `finditer` is modelled by a
left-to-right scanner that advances one character whenever no match starts
at the current position; a matched tag must be followed by at least one
body character (the regex body is `.+?`), otherwise the match attempt
fails and the scan also advances one character.  `scanGo` carries the text
length as fuel (each step consumes at least one character per fuel unit).

A `ParseConfigEntry`'s compiled regex is abstracted by its observable
behaviour `search : List Char → Option (List Char)`, standing for
`pattern_compiled.search(message)` followed by `.group(1)`: the first,
non-anchored match's first capture group, or `none` when the pattern does
not match.  The trace bytes are decoded to characters byte-by-byte
(exact for the ASCII traces the tool consumes).
-/

/-- Uppercase letter or underscore, the character class of a log tag. -/
def isTagChar (c : Char) : Bool := decide (('A' ≤ c ∧ c ≤ 'Z') ∨ c = '_')

/-- Try to match the tag alternative `\[[A-Z_]+\s*\]` at the head of the
text, returning the matched text (regex group 1) and the remainder. -/
def matchBracketTag (l : List Char) : Option (List Char × List Char) :=
  match l with
  | '[' :: t =>
      let us := t.takeWhile isTagChar
      if us.isEmpty then none
      else
        let t1 := t.drop us.length
        let sp := t1.takeWhile isPySpace
        match t1.drop sp.length with
        | ']' :: rest => some ('[' :: (us ++ sp ++ [']']), rest)
        | _ => none
  | _ => none

/-- Try to match the tag alternative `KERNEL\sPANIC:\s` at the head of the
text, returning the matched text (regex group 1) and the remainder. -/
def matchKernelTag (l : List Char) : Option (List Char × List Char) :=
  if (str "KERNEL").isPrefixOf l then
    match l.drop 6 with
    | c :: l2 =>
        if isPySpace c ∧ (str "PANIC:").isPrefixOf l2 then
          match l2.drop 6 with
          | d :: rest =>
              if isPySpace d then
                some (str "KERNEL" ++ c :: str "PANIC:" ++ [d], rest)
              else none
          | [] => none
        else none
    | [] => none
  else none

/-- Try to match regex group 1 of `split_by_pattern` (a scope tag) at the
head of the text; the bracket alternative is tried first, as in the regex. -/
def matchTagAt (l : List Char) : Option (List Char × List Char) :=
  (matchBracketTag l).orElse fun _ => matchKernelTag l

/-- The lookahead that ends a message body: the next bracket tag or a
`KERNEL\sPANIC` marker (the lookahead has no colon, unlike the tag). -/
def isBoundary (l : List Char) : Bool :=
  (matchBracketTag l).isSome ||
    ((str "KERNEL").isPrefixOf l &&
      match l.drop 6 with
      | c :: l2 => isPySpace c && (str "PANIC").isPrefixOf l2
      | [] => false)

/-- The lazy body `.+?` after its mandatory first character: take
characters up to the first boundary position (or the end of the input). -/
def takeUntilB : List Char → List Char
  | [] => []
  | c :: rest => if isBoundary (c :: rest) then [] else c :: takeUntilB rest

/-- The remainder of the text after a lazy body (see `takeUntilB`). -/
def dropUntilB : List Char → List Char
  | [] => []
  | c :: rest => if isBoundary (c :: rest) then c :: rest else dropUntilB rest

/-- The `finditer` scan of `split_by_pattern`, with explicit fuel (the text
length suffices: every step consumes at least one character). -/
def scanGo : Nat → List Char → List (List Char × List Char)
  | 0, _ => []
  | _ + 1, [] => []
  | fuel + 1, c :: rest =>
      match matchTagAt (c :: rest) with
      | some (tag, after) =>
          match after with
          | [] => scanGo fuel rest
          | b :: bodyRest =>
              (tag, b :: takeUntilB bodyRest) :: scanGo fuel (dropUntilB bodyRest)
      | none => scanGo fuel rest

/-- Model of `LogParser.split_by_pattern.finditer`: split a trace into scope blocks
`(raw tag, message body)`. -/
def scanBlocks (l : List Char) : List (List Char × List Char) :=
  scanGo l.length l

/-- Python `group(1).strip('[]: ')` applied to a raw tag: remove brackets,
colons and spaces from both ends, giving the block's scope name. -/
def stripTag (s : List Char) : List Char :=
  let isTagJunk : Char → Bool := fun c => c = '[' ∨ c = ']' ∨ c = ':' ∨ c = ' '
  ((s.dropWhile isTagJunk).reverse.dropWhile isTagJunk).reverse

/-- Model of `ParseConfigEntry` from `tortillas/tortillas_config.py`: a parse rule
with a unique name (the key of the resulting log data; the source accesses
it as `label`/`name` depending on the revision), a scope, and the compiled
regex abstracted by its `search` behaviour (see the section comment). -/
structure ParseConfigEntry where
  name : List Char
  scope : List Char
  search : List Char → Option (List Char)

/-- Log data: the dict `rule name → captured strings`, in insertion order. -/
abbrev LogData := List (List Char × List (List Char))

/-- Python dict construction `{entry.label: [] for entry in config}`:
insert keys in first-occurrence order, each mapped to the empty list. -/
def initGo (seen : List (List Char)) : List ParseConfigEntry → LogData
  | [] => []
  | e :: rest =>
      if e.name ∈ seen then initGo seen rest
      else (e.name, []) :: initGo (e.name :: seen) rest

/-- The initial log data of `LogParser.parse`. -/
def initData (config : List ParseConfigEntry) : LogData := initGo [] config

/-- Python `log_data[name].append(v)`: append a capture to the entry of an
existing key (keys are unique by construction). -/
def dictAppend (d : LogData) (k : List Char) (v : List Char) : LogData :=
  d.map fun p => if p.1 = k then (p.1, p.2 ++ [v]) else p

/-- The inner rule loop of `LogParser.parse` for one scope block: try every
config entry in order; a rule contributes when its scope is `ALL` or equal
to the block's scope and its pattern matches in the body. -/
def applyRules (tagType body : List Char) :
    List ParseConfigEntry → LogData → LogData
  | [], d => d
  | e :: rest, d =>
      let d' :=
        if e.scope = str "ALL" ∨ e.scope = tagType then
          match e.search body with
          | some cap => dictAppend d e.name cap
          | none => d
        else d
      applyRules tagType body rest d'

/-- The outer block loop of `LogParser.parse`. -/
def parseBlocks (config : List ParseConfigEntry) :
    LogData → List (List Char × List Char) → LogData
  | d, [] => d
  | d, (tag, body) :: rest =>
      parseBlocks config (applyRules (stripTag tag) body config d) rest

/-- Model of `LogParser.parse` from `tortillas/log_parser.py`: strip ANSI sequences
from the raw trace bytes, decode, split into scope blocks and apply every
parse rule to every block. -/
def parse (config : List ParseConfigEntry) (raw : List Nat) : LogData :=
  parseBlocks config (initData config)
    (scanBlocks ((escape_ansi raw).map Char.ofNat))

example :
    scanBlocks (str "[SYSCALL ]exit: 7\n[THREAD  ]kill: tid=3\n") =
      [(str "[SYSCALL ]", str "exit: 7\n"),
       (str "[THREAD  ]", str "kill: tid=3\n")] := by decide

example :
    scanBlocks (str "KERNEL PANIC: bad opcode\nrest") =
      [(str "KERNEL PANIC: ", str "bad opcode\nrest")] := by decide

example : stripTag (str "[SYSCALL ]") = str "SYSCALL" := by decide

example : stripTag (str "KERNEL PANIC: ") = str "KERNEL PANIC" := by decide

/-- The key list of a log-data dict. -/
def keysOf (d : LogData) : List (List Char) := d.map Prod.fst

/-- Association-list lookup for log data (keys are unique by construction,
mirroring Python dict access). -/
def lookupD (d : LogData) (k : List Char) : Option (List (List Char)) :=
  match d with
  | [] => none
  | (k', v) :: t => if k' = k then some v else lookupD t k

theorem dictAppend_keysOf (d : LogData) (k v : List Char) :
    keysOf (dictAppend d k v) = keysOf d := by
  induction d with
  | nil => rfl
  | cons p t ih =>
      simp only [dictAppend, keysOf, List.map_cons] at ih ⊢
      by_cases h : p.1 = k <;> simp [h, ih]

theorem applyRules_keysOf (t b : List Char) :
    ∀ (cfg : List ParseConfigEntry) (d : LogData),
      keysOf (applyRules t b cfg d) = keysOf d := by
  intro cfg
  induction cfg with
  | nil => intro d; rfl
  | cons e rest ih =>
      intro d
      simp only [applyRules]
      rw [ih]
      by_cases h : e.scope = str "ALL" ∨ e.scope = t
      · simp only [if_pos h]
        rcases e.search b with _ | cap
        · rfl
        · exact dictAppend_keysOf d e.name cap
      · simp only [if_neg h]

theorem parseBlocks_keysOf (config : List ParseConfigEntry) :
    ∀ (blocks : List (List Char × List Char)) (d : LogData),
      keysOf (parseBlocks config d blocks) = keysOf d := by
  intro blocks
  induction blocks with
  | nil => intro d; rfl
  | cons p rest ih =>
      intro d
      rcases p with ⟨tag, body⟩
      simp only [parseBlocks]
      rw [ih, applyRules_keysOf]

theorem initGo_mem :
    ∀ (cfg : List ParseConfigEntry) (seen : List (List Char)) (k : List Char),
      k ∈ keysOf (initGo seen cfg) ↔
        (k ∉ seen ∧ k ∈ cfg.map ParseConfigEntry.name) := by
  intro cfg
  induction cfg with
  | nil => intro seen k; simp [initGo, keysOf]
  | cons e rest ih =>
      intro seen k
      simp only [initGo]
      by_cases hm : e.name ∈ seen
      · rw [if_pos hm, ih]
        simp only [List.map_cons, List.mem_cons]
        constructor
        · rintro ⟨h1, h2⟩; exact ⟨h1, Or.inr h2⟩
        · rintro ⟨h1, h2 | h2⟩
          · subst h2; exact absurd hm h1
          · exact ⟨h1, h2⟩
      · rw [if_neg hm]
        simp only [keysOf, List.map_cons, List.mem_cons]
        constructor
        · rintro (h | h)
          · subst h; simp [hm]
          · have := (ih (e.name :: seen) k).mp h
            rcases this with ⟨h1, h2⟩
            simp only [List.mem_cons] at h1
            push_neg at h1
            exact ⟨h1.2, Or.inr h2⟩
        · rintro ⟨h1, h2 | h2⟩
          · exact Or.inl h2
          · by_cases hk : k = e.name
            · exact Or.inl hk
            · refine Or.inr ((ih (e.name :: seen) k).mpr ⟨?_, h2⟩)
              simp [hk, h1]

/-- C5: totality of the log data.  For every rule list and every byte
trace, the dict returned by `LogParser.parse` has exactly the rule names
as its keys (rules that matched nothing keep their initial empty list). -/
theorem parse_keys_totality :
    ∀ (config : List ParseConfigEntry) (raw : List Nat) (k : List Char),
      k ∈ keysOf (parse config raw) ↔ k ∈ config.map ParseConfigEntry.name := by
  intro config raw k
  unfold parse
  rw [parseBlocks_keysOf]
  unfold initData
  rw [initGo_mem]
  simp

theorem lookupD_cons (k' : List Char) (vs : List (List Char)) (t : LogData)
    (k : List Char) :
    lookupD ((k', vs) :: t) k = if k' = k then some vs else lookupD t k := rfl

theorem dictAppend_cons (k' : List Char) (vs : List (List Char)) (t : LogData)
    (k v : List Char) :
    dictAppend ((k', vs) :: t) k v =
      (if k' = k then (k', vs ++ [v]) else (k', vs)) :: dictAppend t k v := by
  by_cases h : k' = k
  · simp [dictAppend, h]
  · simp [dictAppend, h]

theorem dictAppend_lookupD_eq (d : LogData) (k v : List Char) :
    lookupD (dictAppend d k v) k = (lookupD d k).map (· ++ [v]) := by
  induction d with
  | nil => rfl
  | cons p t ih =>
      rcases p with ⟨k', vs⟩
      rw [dictAppend_cons]
      by_cases h : k' = k
      · rw [if_pos h, lookupD_cons, if_pos h, lookupD_cons, if_pos h]
        rfl
      · rw [if_neg h, lookupD_cons, if_neg h, lookupD_cons, if_neg h, ih]

theorem dictAppend_lookupD_ne (d : LogData) (k v k' : List Char)
    (hk : k' ≠ k) : lookupD (dictAppend d k v) k' = lookupD d k' := by
  induction d with
  | nil => rfl
  | cons p t ih =>
      rcases p with ⟨k0, vs⟩
      rw [dictAppend_cons]
      by_cases h : k0 = k
      · rw [if_pos h, lookupD_cons, lookupD_cons, ih]
        have : ¬ k0 = k' := by rw [h]; exact fun he => hk he.symm
        rw [if_neg this, if_neg this]
      · rw [if_neg h, lookupD_cons, lookupD_cons, ih]

theorem applyRules_lookupD_not_mem (t b : List Char) :
    ∀ (cfg : List ParseConfigEntry) (d : LogData) (k : List Char),
      k ∉ cfg.map ParseConfigEntry.name →
      lookupD (applyRules t b cfg d) k = lookupD d k := by
  intro cfg
  induction cfg with
  | nil => intro d k _; rfl
  | cons e rest ih =>
      intro d k hk
      simp only [List.map_cons, List.mem_cons] at hk
      push_neg at hk
      simp only [applyRules]
      rw [ih _ k hk.2]
      by_cases h : e.scope = str "ALL" ∨ e.scope = t
      · simp only [if_pos h]
        rcases e.search b with _ | cap
        · rfl
        · exact dictAppend_lookupD_ne d e.name cap k hk.1
      · simp only [if_neg h]

/-- The capture a single block contributes to a single rule: the first
match's group 1, if the rule's scope admits the block's scope. -/
def blockCapture (R : ParseConfigEntry) (p : List Char × List Char) :
    Option (List Char) :=
  if R.scope = str "ALL" ∨ R.scope = stripTag p.1 then R.search p.2 else none

theorem applyRules_lookupD (R : ParseConfigEntry) (t b : List Char) :
    ∀ (cfg : List ParseConfigEntry) (d : LogData) (vs : List (List Char)),
      (cfg.map ParseConfigEntry.name).Nodup → R ∈ cfg →
      lookupD d R.name = some vs →
      lookupD (applyRules t b cfg d) R.name =
        some (vs ++
          (if R.scope = str "ALL" ∨ R.scope = t then R.search b else none).toList) := by
  intro cfg
  induction cfg with
  | nil => intro d vs _ hR _; cases hR
  | cons e rest ih =>
      intro d vs hnd hR hd
      simp only [List.map_cons, List.nodup_cons] at hnd
      rcases List.mem_cons.mp hR with rfl | hR'
      · simp only [applyRules]
        have hrest : R.name ∉ rest.map ParseConfigEntry.name := hnd.1
        rw [applyRules_lookupD_not_mem t b rest _ R.name hrest]
        by_cases h : R.scope = str "ALL" ∨ R.scope = t
        · simp only [if_pos h]
          rcases hs : R.search b with _ | cap
          · simp [hs, hd]
          · simp only [Option.toList_some]
            rw [dictAppend_lookupD_eq, hd]
            rfl
        · simp only [if_neg h]
          simpa using hd
      · have hne : e.name ≠ R.name := by
          intro hEq
          exact hnd.1 (hEq ▸ List.mem_map_of_mem ParseConfigEntry.name hR')
        simp only [applyRules]
        refine ih _ _ hnd.2 hR' ?_
        by_cases h : e.scope = str "ALL" ∨ e.scope = t
        · simp only [if_pos h]
          rcases e.search b with _ | cap
          · exact hd
          · rw [dictAppend_lookupD_ne d e.name cap R.name (Ne.symm hne)]
            exact hd
        · simp only [if_neg h]
          exact hd

theorem parseBlocks_lookupD (config : List ParseConfigEntry)
    (R : ParseConfigEntry)
    (hnd : (config.map ParseConfigEntry.name).Nodup) (hR : R ∈ config) :
    ∀ (blocks : List (List Char × List Char)) (d : LogData)
      (vs : List (List Char)),
      lookupD d R.name = some vs →
      lookupD (parseBlocks config d blocks) R.name =
        some (vs ++ blocks.filterMap (blockCapture R)) := by
  intro blocks
  induction blocks with
  | nil => intro d vs hd; simpa using hd
  | cons p rest ih =>
      intro d vs hd
      rcases p with ⟨tag, body⟩
      simp only [parseBlocks]
      have h1 := applyRules_lookupD R (stripTag tag) body config d vs hnd hR hd
      have h2 := ih _ _ h1
      rw [h2, List.filterMap_cons]
      rcases hc : blockCapture R (tag, body) with _ | cap
      · unfold blockCapture at hc
        simp only at hc
        rw [hc] at h2 ⊢
        simp
      · unfold blockCapture at hc
        simp only at hc
        rw [hc]
        simp

theorem initGo_lookupD :
    ∀ (cfg : List ParseConfigEntry) (seen : List (List Char)) (k : List Char),
      lookupD (initGo seen cfg) k =
        if k ∉ seen ∧ k ∈ cfg.map ParseConfigEntry.name then some [] else none := by
  intro cfg
  induction cfg with
  | nil => intro seen k; simp [initGo, lookupD]
  | cons e rest ih =>
      intro seen k
      simp only [initGo]
      by_cases hm : e.name ∈ seen
      · rw [if_pos hm, ih]
        by_cases hk : k = e.name
        · subst hk
          simp [hm]
        · simp [hk, List.map_cons]
      · rw [if_neg hm]
        by_cases hk : e.name = k
        · subst hk
          simp [lookupD, hm]
        · simp only [lookupD, if_neg hk]
          rw [ih]
          simp only [List.mem_cons, List.map_cons]
          by_cases hs : k ∈ seen
          · simp [hs]
          · simp [hs, Ne.symm hk, hk]

/-- C6: the parsing algorithm.  For a rule `R` of a duplicate-free rule
list, the captures recorded under `R`'s name are exactly, and in trace
order, the group-1 results of `R`'s pattern applied once per scope block
(first match only, via `R.search`), restricted to the blocks whose scope
equals `R.scope` or when `R.scope` is `ALL`. -/
theorem parse_rule_captures (config : List ParseConfigEntry) (raw : List Nat)
    (R : ParseConfigEntry)
    (hnd : (config.map ParseConfigEntry.name).Nodup) (hR : R ∈ config) :
    lookupD (parse config raw) R.name =
      some ((scanBlocks ((escape_ansi raw).map Char.ofNat)).filterMap
        (blockCapture R)) := by
  unfold parse
  have h0 : lookupD (initData config) R.name = some [] := by
    unfold initData
    rw [initGo_lookupD]
    simp [List.mem_map_of_mem ParseConfigEntry.name hR]
  have := parseBlocks_lookupD config R hnd hR
    (scanBlocks ((escape_ansi raw).map Char.ofNat)) (initData config) [] h0
  simpa using this

/-- The `SYSCALL`-scoped rule of the witness configuration; its pattern
captures the whole block body. -/
def ruleSyscall : ParseConfigEntry :=
  ⟨str "a", str "SYSCALL", fun b => some b⟩

/-- The `THREAD`-scoped rule of the witness configuration. -/
def ruleThread : ParseConfigEntry :=
  ⟨str "b", str "THREAD", fun _ => some (str "k")⟩

/-- The witness trace, as raw bytes. -/
def rawS4 : List Nat :=
  (str "[SYSCALL ]exit: 7\n[THREAD  ]kill: tid=3\n").map Char.toNat

/-- Witness for C6: the characterization applied to a concrete two-rule
configuration and a concrete trace. -/
theorem parse_rule_captures_witness :
    ([ruleSyscall, ruleThread].map ParseConfigEntry.name).Nodup ∧
      lookupD (parse [ruleSyscall, ruleThread] rawS4) ruleSyscall.name =
        some ((scanBlocks ((escape_ansi rawS4).map Char.ofNat)).filterMap
          (blockCapture ruleSyscall)) :=
  ⟨by decide,
   parse_rule_captures [ruleSyscall, ruleThread] rawS4 ruleSyscall
     (by decide) (List.mem_cons_self _ _)⟩

/-!
## `InterruptWatchdog` (`tortillas/qemu_interface.py`, lines 151-299)

Registers are parsed from whitespace-separated `NAME=HEXVALUE` tokens into
a dict, modelled as an association list with insertion-order upsert.
Python's `int(val, 16)` is modelled for stripped tokens with an optional
sign and an optional `0x`/`0X` prefix followed by hex digits (grouping
underscores are not modelled).  `wait_until`'s polling loop is modelled
over the list of file contents seen at each of its `int(timeout / 0.5)`
iterations (exactly `2 * timeout` for an integer `timeout`, since halving
is exact); the file is a character list and the saved `file_pos` a
character offset, `readlines` keeps the trailing newline of each line.
-/

/-- A register dump: Python dict from register name to integer value. -/
abbrev RegMap := List (List Char × Int)

/-- Dict lookup on a register map. -/
def lookupReg : RegMap → List Char → Option Int
  | [], _ => none
  | (k', v) :: t, k => if k' = k then some v else lookupReg t k

/-- Dict assignment `regs[key] = val`: overwrite in place, else append. -/
def regUpsert (m : RegMap) (k : List Char) (v : Int) : RegMap :=
  if (lookupReg m k).isSome then
    m.map fun p => if p.1 = k then (p.1, v) else p
  else m ++ [(k, v)]

/-- The value of a hexadecimal digit. -/
def hexVal (c : Char) : Option Nat :=
  if '0' ≤ c ∧ c ≤ '9' then some (c.toNat - 48)
  else if 'a' ≤ c ∧ c ≤ 'f' then some (c.toNat - 87)
  else if 'A' ≤ c ∧ c ≤ 'F' then some (c.toNat - 55)
  else none

/-- Accumulate hexadecimal digits. -/
def hexGo (acc : Nat) : List Char → Option Nat
  | [] => some acc
  | c :: t =>
      match hexVal c with
      | some d => hexGo (16 * acc + d) t
      | none => none

/-- A non-empty all-hex-digit string, as a number. -/
def hexNat (l : List Char) : Option Nat :=
  match l with
  | [] => none
  | _ => hexGo 0 l

/-- The digits of Python `int(s, 16)` after the optional sign: an optional
`0x`/`0X` prefix followed by hex digits. -/
def hexBody (u : List Char) : Option Nat :=
  match u with
  | '0' :: 'x' :: v => hexNat v
  | '0' :: 'X' :: v => hexNat v
  | v => hexNat v

/-- Python `int(s, 16)` on the register-dump tokens. -/
def pyIntHex (s : List Char) : Option Int :=
  match pyStrip s with
  | '-' :: u => (hexBody u).map fun n => -(n : Int)
  | '+' :: u => (hexBody u).map fun n => (n : Int)
  | u => (hexBody u).map fun n => (n : Int)

/-- The token loop of `InterruptWatchdog.parse_interrupt`. -/
def parseRegsGo (regs : RegMap) : List (List Char) → RegMap
  | [] => regs
  | tok :: rest =>
      if tok = [] then parseRegsGo regs rest
      else if ¬ tok.contains '=' then parseRegsGo regs rest
      else if tok.getLast? = some '=' then parseRegsGo regs rest
      else
        let parts := tok.splitOn '='
        let key := parts.getD 0 []
        let val := parts.getD 1 []
        if key = [] ∨ val = [] then parseRegsGo regs rest
        else
          match pyIntHex val with
          | some v => parseRegsGo (regUpsert regs key v) rest
          | none => parseRegsGo regs rest

/-- Model of `InterruptWatchdog.parse_interrupt`: parse the register dump of one
interrupt frame into a dict. -/
def parse_interrupt (interrupt : List Char) : RegMap :=
  parseRegsGo [] (interrupt.splitOn ' ')

/-- Model of `InterruptWatchdog.match_registers`: every register present in the
parsed frame that is also constrained must have the constrained value;
registers absent from the constraints are ignored. -/
def match_registers (search_regs int_regs : RegMap) : Bool :=
  int_regs.all fun p =>
    match lookupReg search_regs p.1 with
    | none => true
    | some w => decide (w = p.2)

/-- The substring `f'v={int_num}'` looked for in a frame's first line. -/
def vPat (n : Nat) : List Char := str "v=" ++ (toString n).toList

/-- The block-size loop of `InterruptWatchdog.search_interrupt`, expressed
on the suffix of the line list that starts at the current index: try 21,
then 1..29, stopping when the end of the input or another `v=` line is
reached; 29 when no candidate fires. -/
def blockSize (suffix : List (List Char)) : Nat :=
  ((21 :: List.range' 1 29).find? fun bs =>
      decide (bs + 1 ≥ suffix.length) ||
        containsSub (suffix.getD bs []) (str "v=")).getD 29

/-- The register dump of the frame starting at the head of `suffix`:
lines `1` to `block_size - 1` after the `v=` line, each with newlines
stripped and a space appended, concatenated. -/
def frameBody (suffix : List (List Char)) : List Char :=
  (((suffix.drop 1).take (blockSize suffix - 1)).map
    fun l => stripNl l ++ [' ']).flatten

/-- The parsed registers of the frame starting at the head of `suffix`. -/
def frameRegs (suffix : List (List Char)) : RegMap :=
  parse_interrupt (frameBody suffix)

/-- Model of `InterruptWatchdog.search_interrupt`: scan the lines for one whose text
contains `v=<int_num>` and whose following block's registers satisfy
`match_registers`; return the first such frame's parsed registers. -/
def search_interrupt (n : Nat) (cs : RegMap) :
    List (List Char) → Option RegMap
  | [] => none
  | line :: rest =>
      if containsSub line (vPat n) then
        let regs := frameRegs (line :: rest)
        if match_registers cs regs then some regs
        else search_interrupt n cs rest
      else search_interrupt n cs rest

/-- Model of `readlines`: split a text into lines, keeping each newline. -/
def splitGo (cur : List Char) : List Char → List (List Char)
  | [] => if cur.isEmpty then [] else [cur.reverse]
  | c :: rest =>
      if c = '\n' then (c :: cur).reverse :: splitGo [] rest
      else splitGo (c :: cur) rest

/-- Model of `readlines` on a whole text. -/
def splitLinesKeep (l : List Char) : List (List Char) := splitGo [] l

/-- The status values of `InterruptWatchdog.Status`. -/
inductive WdStatus where
  | OK
  | TIMEOUT
  | STOPPED
deriving DecidableEq

/-- One polling loop of `InterruptWatchdog.wait_until`: at each iteration
read the file from the saved position, search the newly read lines, and
return `OK` on a non-empty match (an empty register dict is falsy in
Python, hence not a find); otherwise advance the saved position to the end
of the file and count iterations without progress, returning `STOPPED`
after more than ten of them; `TIMEOUT` when the iterations are exhausted. -/
def waitLoop (n : Nat) (cs : RegMap) :
    List (List Char) → Nat → Nat → WdStatus
  | [], _, _ => .TIMEOUT
  | content :: rest, filePos, unchanged =>
      let lines := splitLinesKeep (content.drop filePos)
      let found :=
        match search_interrupt n cs lines with
        | some regs => !regs.isEmpty
        | none => false
      if found then .OK
      else
        let newPos := max filePos content.length
        if newPos = filePos then
          if unchanged > 10 then .STOPPED
          else waitLoop n cs rest newPos (unchanged + 1)
        else waitLoop n cs rest newPos 0

/-- Model of `InterruptWatchdog.wait_until`: run the polling loop for
`int(timeout / 0.5)` iterations (`sleep_time` is `0.5`), over the file
contents `fileAt k` seen at iteration `k`, starting at file position `0`. -/
def wait_until (n : Nat) (cs : RegMap) (timeout : Int)
    (fileAt : Nat → List Char) : WdStatus :=
  waitLoop n cs ((List.range (2 * timeout).toNat).map fileAt) 0 0

example : parse_interrupt (str "RAX=0000000000000004 RBX=00x1 CCO=SUBQ EFER=0d00 X= =Y") =
    [(str "RAX", 4), (str "EFER", 0xd00)] := by decide

example : search_interrupt 80 [(str "RAX", 0x42)]
    (splitLinesKeep (str "v=80\nRAX=42\nEFER=0\n")) =
    some [(str "RAX", 0x42), (str "EFER", 0)] := by decide

example : search_interrupt 80 [(str "RAX", 0x2B)]
    (splitLinesKeep (str "v=80\nRAX=42\nEFER=0\n")) = none := by decide

/-- The acceptance condition `search_interrupt` tests at line index `i`:
the line contains the text `v=<int_num>` and the frame block starting
there satisfies the register constraints. -/
def acceptAt (n : Nat) (cs : RegMap) (ls : List (List Char)) (i : Nat) : Prop :=
  containsSub (ls.getD i []) (vPat n) = true ∧
    match_registers cs (frameRegs (ls.drop i)) = true

theorem acceptAt_zero (n : Nat) (cs : RegMap) (line : List Char)
    (rest : List (List Char)) :
    acceptAt n cs (line :: rest) 0 ↔
      (containsSub line (vPat n) = true ∧
        match_registers cs (frameRegs (line :: rest)) = true) := Iff.rfl

theorem acceptAt_succ (n : Nat) (cs : RegMap) (line : List Char)
    (rest : List (List Char)) (j : Nat) :
    acceptAt n cs (line :: rest) (j + 1) ↔ acceptAt n cs rest j := by
  unfold acceptAt
  rw [List.getD_cons_succ, List.drop_succ_cons]

theorem acceptAt_shift_exists (n : Nat) (cs : RegMap) (line : List Char)
    (rest : List (List Char)) (r : RegMap)
    (h0 : ¬ acceptAt n cs (line :: rest) 0) :
    (∃ i, i < (line :: rest).length ∧ acceptAt n cs (line :: rest) i ∧
        r = frameRegs ((line :: rest).drop i) ∧
        ∀ j < i, ¬ acceptAt n cs (line :: rest) j) ↔
      (∃ i, i < rest.length ∧ acceptAt n cs rest i ∧
        r = frameRegs (rest.drop i) ∧ ∀ j < i, ¬ acceptAt n cs rest j) := by
  constructor
  · rintro ⟨i, hi, ha, hr, hmin⟩
    match i with
    | 0 => exact absurd ha h0
    | i + 1 =>
        refine ⟨i, ?_, (acceptAt_succ n cs line rest i).mp ha, ?_, ?_⟩
        · simpa using hi
        · rw [List.drop_succ_cons] at hr; exact hr
        · intro j hj
          intro hacc
          exact hmin (j + 1) (by omega)
            ((acceptAt_succ n cs line rest j).mpr hacc)
  · rintro ⟨i, hi, ha, hr, hmin⟩
    refine ⟨i + 1, by simpa using hi,
      (acceptAt_succ n cs line rest i).mpr ha, ?_, ?_⟩
    · rw [List.drop_succ_cons]; exact hr
    · intro j hj
      match j with
      | 0 => exact h0
      | j + 1 =>
          intro hacc
          exact hmin j (by omega) ((acceptAt_succ n cs line rest j).mp hacc)

/-- C4, counterexample: the vector test of `search_interrupt` is a
substring test on `f'v={int_num}'`, so a frame whose first line reads
`v=80` is matched when `int_num` is `8` (`'v=8'` occurs inside `'v=80'`),
although its vector is not `8`; the claim requires such a frame not to
match. -/
theorem search_interrupt_matches_other_vector :
    search_interrupt 8 [] [str "v=80\n", str "RAX=4\n"] =
      some [(str "RAX", 4)] := by decide

/-- C4, amended: `match_registers` accepts exactly when every register of
the parsed frame that is also constrained carries the constrained value
(constraints on registers missing from the frame never disqualify, and the
empty constraint map accepts every frame), and `search_interrupt` returns
the parsed registers of the first line index whose line *contains the text*
`v=<int_num>` (a substring test, not a vector-equality test) and whose
block satisfies the constraints, or `none` when there is no such index. -/
theorem search_interrupt_characterization :
    (∀ cs regs : RegMap, match_registers cs regs = true ↔
        ∀ p ∈ regs, ∀ v, lookupReg cs p.1 = some v → v = p.2) ∧
    (∀ regs : RegMap, match_registers [] regs = true) ∧
    (∀ (n : Nat) (cs : RegMap) (ls : List (List Char)) (r : RegMap),
      search_interrupt n cs ls = some r ↔
        ∃ i, i < ls.length ∧ acceptAt n cs ls i ∧
          r = frameRegs (ls.drop i) ∧ ∀ j < i, ¬ acceptAt n cs ls j) := by
  refine ⟨?_, ?_, ?_⟩
  · intro cs regs
    unfold match_registers
    rw [List.all_eq_true]
    constructor
    · intro h p hp v hv
      have := h p hp
      rw [hv] at this
      exact of_decide_eq_true this
    · intro h p hp
      rcases hl : lookupReg cs p.1 with _ | w
      · rfl
      · exact decide_eq_true (h p hp w hl)
  · intro regs
    unfold match_registers
    rw [List.all_eq_true]
    intro p _
    rfl
  · have cons_eq : ∀ (n : Nat) (cs : RegMap) (line : List Char)
        (rest : List (List Char)),
        search_interrupt n cs (line :: rest) =
          if containsSub line (vPat n) = true then
            (if match_registers cs (frameRegs (line :: rest)) = true then
              some (frameRegs (line :: rest))
            else search_interrupt n cs rest)
          else search_interrupt n cs rest := fun _ _ _ _ => rfl
    intro n cs ls
    induction ls with
    | nil =>
        intro r
        simp [search_interrupt]
    | cons line rest ih =>
        intro r
        by_cases hc : containsSub line (vPat n) = true
        · by_cases hm : match_registers cs (frameRegs (line :: rest)) = true
          · rw [cons_eq, if_pos hc, if_pos hm]
            constructor
            · intro h
              injection h with h
              exact ⟨0, by simp, ⟨hc, hm⟩, by simpa using h.symm,
                fun j hj => absurd hj (Nat.not_lt_zero j)⟩
            · rintro ⟨i, hi, ha, hr, hmin⟩
              match i with
              | 0 => simpa using hr.symm
              | i + 1 => exact absurd ⟨hc, hm⟩ (hmin 0 (by omega))
          · rw [cons_eq, if_pos hc, if_neg hm, ih r]
            exact (acceptAt_shift_exists n cs line rest r
              (fun h => hm h.2)).symm
        · rw [cons_eq, if_neg hc, ih r]
          exact (acceptAt_shift_exists n cs line rest r
            (fun h => hc h.1)).symm

/-- Witness for the amended C4 theorem: the empty constraint map accepts
the concrete register dump `{RAX: 4}`. -/
theorem search_interrupt_characterization_witness :
    match_registers [] [(str "RAX", 4)] = true :=
  search_interrupt_characterization.2.1 [(str "RAX", 4)]

/-- The first poll's file content in the split-frame scenario: only the
frame's `v=` line has been written. -/
def frameHead : List Char := str "v=80\n"

/-- The complete interrupt frame: `v=` line, register line, `EFER`
terminator. -/
def frameFull : List Char := str "v=80\nRAX=42\nEFER=0\n"

/-- The register constraint used in the watchdog scenarios. -/
def csRAX : RegMap := [(str "RAX", 0x42)]

/-- C8, counterexample: the watchdog consumes bytes past an unfinished
frame boundary.  With the `v=80` line alone readable at the first poll and
the register lines arriving afterwards, `wait_until` advances its saved
position past the `v=` line and never matches the frame, returning
`TIMEOUT` — although the very same file contents contain a frame matching
the constraints (second conjunct). -/
theorem wait_until_split_frame_missed :
    wait_until 80 csRAX 2 (fun k => if k = 0 then frameHead else frameFull) =
        WdStatus.TIMEOUT ∧
      (search_interrupt 80 csRAX (splitLinesKeep frameFull)).isSome = true := by
  decide

/-- C8, amended: after every poll in which the newly read bytes contain no
complete matching frame, the watchdog advances its saved file position to
the end of the file, even into the middle of a partially written frame; a
frame is therefore found exactly when its `v=` line and register lines are
read in the same poll.  With the frame of `frameFull` available whole in
one poll `wait_until` reports `OK`, while the same frame delivered with
the `v=` line one poll ahead of the register lines is missed and
`wait_until` reports `TIMEOUT`. -/
theorem wait_until_same_poll_only :
    wait_until 80 csRAX 2 (fun _ => frameFull) = WdStatus.OK ∧
      wait_until 80 csRAX 2 (fun k => if k = 0 then frameHead else frameFull) ≠
        WdStatus.OK := by
  decide

/-- C10: `wait_until` with a timeout below the 0.5-second poll interval
computes the iteration budget `int(timeout / 0.5) = 0` (stated as
`2 * timeout < 1`), so the polling loop never runs and the call returns
`TIMEOUT` regardless of the interrupt log's contents. -/
theorem wait_until_zero_budget (n : Nat) (cs : RegMap) (timeout : Int)
    (fileAt : Nat → List Char) (h : 2 * timeout < 1) :
    wait_until n cs timeout fileAt = WdStatus.TIMEOUT := by
  unfold wait_until
  have h0 : (2 * timeout).toNat = 0 := by omega
  rw [h0]
  rfl

/-- Witness for C10 at `timeout = 0`, with the interrupt log already
containing a frame matching the requested interrupt and registers. -/
theorem wait_until_zero_budget_witness :
    2 * (0 : Int) < 1 ∧
      (search_interrupt 80 csRAX (splitLinesKeep frameFull)).isSome = true ∧
      wait_until 80 csRAX 0 (fun _ => frameFull) = WdStatus.TIMEOUT :=
  ⟨by decide, by decide,
   wait_until_zero_budget 80 csRAX 0 (fun _ => frameFull) (by decide)⟩

/-!
## `TestResult` and `LogAnalyzer` (`tortillas/log_analyzer.py`)

`TestStatus` and `TestResult` are the dataclasses of `log_analyzer.py`.
`analyze` iterates the `log_data` dict items in insertion order; looking
up a key with no config entry raises `StopIteration` (`next` on an empty
generator) and an unknown `set_status` name raises `KeyError`, both
modelled by `Except`.  Error strings are built exactly as the f-strings of
the source.
-/

/-- Model of `TestStatus` from `tortillas/log_analyzer.py`. -/
inductive TestStatus where
  | PANIC
  | FAILED
  | TIMEOUT
  | SUCCESS
  | DISABLED
  | NOT_RUN
deriving DecidableEq, Repr

/-- Model of `TestResult` from `tortillas/log_analyzer.py`: status, ordered error
strings, retry flag. -/
structure TestResult where
  status : TestStatus
  errors : List (List Char)
  retry : Bool
deriving DecidableEq, Repr

/-- Model of `TestResult._set_status`: overwrite the status when one is given
(`None`, the only falsy value here, leaves it unchanged). -/
def setStatus (r : TestResult) (status : Option TestStatus) : TestResult :=
  match status with
  | none => r
  | some s => { r with status := s }

/-- Model of `TestResult.add_errors`: append every error and then apply
`_set_status`; an empty error list leaves the result untouched. -/
def add_errors (r : TestResult) (errors : List (List Char))
    (status : Option TestStatus := none) : TestResult :=
  if errors = [] then r
  else setStatus { r with errors := r.errors ++ errors } status

/-- Model of `TORTILLAS_EXPECT_PREFIX` from `tortillas/constants.py`. -/
def expectMarker : List Char := str "TORTILLAS EXPECT: "

/-- The expectation loop of `TestResult.check_expect_stdout`: append an
error for every expectation whose stripped text occurs in no observed
line, tracking whether any was missing. -/
def expectLoop (stdout : List (List Char)) (r : TestResult) (missing : Bool) :
    List (List Char) → TestResult × Bool
  | [] => (r, missing)
  | e :: rest =>
      if stdout.any (fun got => containsSub got (pyStrip e)) then
        expectLoop stdout r missing rest
      else
        expectLoop stdout
          { r with errors := r.errors ++ [str "Expected output: " ++ e] }
          true rest

/-- Model of `TestResult.check_expect_stdout`: lines starting with the expect
marker are expectations — the source slices them with
`line[len(TORTILLAS_EXPECT_PREFIX)-1:]`, keeping the marker's trailing
space — all other lines are observed output; missing expectations produce
errors, then one fenced block with the observed output, and the status is
applied only when something was missing. -/
def check_expect_stdout (r : TestResult) (logs : List (List Char))
    (status : Option TestStatus := none) : TestResult :=
  let stdout := logs.filter fun l => ¬ expectMarker.isPrefixOf l
  let expects := (logs.filter fun l => expectMarker.isPrefixOf l).map
    (List.drop (expectMarker.length - 1))
  match expectLoop stdout r false expects with
  | (r', missing) =>
      if missing then
        setStatus
          { r' with errors := r'.errors ++
              [str "Actual output:\n```\n" ++ stdout.flatten ++ str "\n```"] }
          status
      else r'

/-- Python `int(s)` (base 10) on the captured exit-code strings: optional
surrounding whitespace, optional sign, then a non-empty digit run
(grouping underscores are not modelled). -/
def pyInt (s : List Char) : Option Int :=
  let digitsToNat : List Char → Option Nat := fun ds =>
    match ds with
    | [] => none
    | _ =>
        ds.foldl (fun acc c =>
          acc.bind fun n =>
            if '0' ≤ c ∧ c ≤ '9' then some (10 * n + (c.toNat - 48)) else none)
          (some 0)
  match pyStrip s with
  | '-' :: u => (digitsToNat u).map fun n => -(n : Int)
  | '+' :: u => (digitsToNat u).map fun n => (n : Int)
  | u => (digitsToNat u).map fun n => (n : Int)

/-- Python `', '.join(str(e) for e in expect_exit_codes)`. -/
def joinCodes (l : List Int) : List Char :=
  List.intercalate (str ", ") (l.map fun e => (toString e).toList)

/-- The exit-code loop of `TestResult.check_exit_codes`: parse each code;
a parse failure appends its error, forces `FAILED` and `retry` and stops;
an unexpected code appends its error; after the loop, if any code was
unexpected, the expected codes are reported and `_set_status` applied. -/
def exitLoop (expect : List Int) (status : Option TestStatus)
    (r : TestResult) (unexpected : Bool) :
    List (List Char) → TestResult
  | [] =>
      if unexpected then
        setStatus
          { r with errors := r.errors ++
              [str "Expected exit code(s): " ++ joinCodes expect] }
          status
      else r
  | s :: rest =>
      match pyInt s with
      | none =>
          { r with
            errors := r.errors ++ [str "Failed to parse exit code " ++ s],
            status := TestStatus.FAILED,
            retry := true }
      | some n =>
          if n ∈ expect then exitLoop expect status r unexpected rest
          else
            exitLoop expect status
              { r with errors := r.errors ++ [str "Unexpected exit code " ++ s] }
              true rest

/-- Model of `TestResult.check_exit_codes`: no-op when the status is already
`PANIC`; an empty capture list reports a missing exit code (downgrading
`SUCCESS` to `FAILED`); otherwise run the exit-code loop. -/
def check_exit_codes (r : TestResult) (exit_codes : List (List Char))
    (expect : List Int) (status : Option TestStatus := none) : TestResult :=
  if r.status = TestStatus.PANIC then r
  else if exit_codes = [] then
    let r1 := { r with errors := r.errors ++ [str "Missing exit code!"] }
    if r1.status = TestStatus.SUCCESS then { r1 with status := TestStatus.FAILED }
    else exitLoop expect status r1 false []
  else exitLoop expect status r false exit_codes

/-- Model of `AnalyzeConfigEntry` from `tortillas/tortillas_config.py` as consumed
by `log_analyzer.py`: rule name, mode string, and the `set_status` name
(the empty string models the falsy default). -/
structure AnalyzeConfigEntry where
  name : List Char
  mode : List Char
  set_status : List Char
deriving DecidableEq, Repr

/-- The fields of `TestSpec` (`tortillas/test_specification.py`) that
`LogAnalyzer.analyze` reads. -/
structure TestSpec where
  disabled : Bool
  expect_timeout : Bool
  expect_exit_codes : List Int
deriving DecidableEq, Repr

/-- Python `TestStatus[name]`: enum lookup by member name. -/
def statusFromName (s : List Char) : Option TestStatus :=
  if s = str "PANIC" then some TestStatus.PANIC
  else if s = str "FAILED" then some TestStatus.FAILED
  else if s = str "TIMEOUT" then some TestStatus.TIMEOUT
  else if s = str "SUCCESS" then some TestStatus.SUCCESS
  else if s = str "DISABLED" then some TestStatus.DISABLED
  else if s = str "NOT_RUN" then some TestStatus.NOT_RUN
  else none

/-- The exceptions `LogAnalyzer.analyze` can raise: `StopIteration` from
`_get_config_entry_by_name` on a log-data key with no config entry, and
`KeyError` from `TestStatus[...]` on an unknown status name. -/
inductive AnalyzeErr where
  | stopIteration
  | keyError
deriving DecidableEq, Repr

/-- Model of `InterruptWatchdog.Status` as consumed by `analyze`. -/
abbrev WatchdogStatus := WdStatus

/-- The rule loop of `LogAnalyzer.analyze` over the `log_data` items. -/
def analyzeLoop (config : List AnalyzeConfigEntry) (spec : TestSpec) :
    TestResult → List (List Char × List (List Char)) →
    Except AnalyzeErr TestResult
  | r, [] => Except.ok r
  | r, (entry_name, logs) :: rest =>
      match config.find? fun e => e.name = entry_name with
      | none => Except.error AnalyzeErr.stopIteration
      | some e =>
          let statusE : Except AnalyzeErr (Option TestStatus) :=
            if e.set_status = [] then Except.ok none
            else
              match statusFromName e.set_status with
              | some s => Except.ok (some s)
              | none => Except.error AnalyzeErr.keyError
          match statusE with
          | Except.error err => Except.error err
          | Except.ok status =>
              if logs = [] then analyzeLoop config spec r rest
              else
                let r' :=
                  if e.mode = str "add_as_error" then add_errors r logs status
                  else if e.mode = str "add_as_error_join" then
                    add_errors r [str "```\n" ++ logs.flatten ++ str "```\n"]
                      status
                  else if e.mode = str "add_as_error_last" then
                    add_errors r (logs.take 1) status
                  else if e.mode = str "expect_stdout" then
                    check_expect_stdout r logs status
                  else if e.mode = str "exit_codes" then
                    check_exit_codes r logs
                      (if spec.expect_exit_codes = [] then [0]
                       else spec.expect_exit_codes)
                      status
                  else r
                analyzeLoop config spec r' rest

/-- Model of `LogAnalyzer.analyze`: start from `SUCCESS`, return `DISABLED`
immediately for disabled specs, record the watchdog pre-reductions, then
apply the configured rule for every log-data item in insertion order. -/
def analyze (spec : TestSpec) (config : List AnalyzeConfigEntry)
    (log_data : List (List Char × List (List Char)))
    (wd : WatchdogStatus) : Except AnalyzeErr TestResult :=
  let r0 : TestResult := ⟨TestStatus.SUCCESS, [], false⟩
  if spec.disabled then Except.ok { r0 with status := TestStatus.DISABLED }
  else
    let r1 :=
      if wd = WdStatus.STOPPED then
        add_errors r0 [str "Test killed, because no more interrupts were coming"]
      else r0
    let r2 :=
      if wd = WdStatus.TIMEOUT ∧ ¬ spec.expect_timeout then
        add_errors r1 [str "Test execution timeout"] (some TestStatus.TIMEOUT)
      else r1
    analyzeLoop config spec r2 log_data

instance {e a : Type} [DecidableEq e] [DecidableEq a] :
    DecidableEq (Except e a) := fun x y =>
  match x, y with
  | .ok v, .ok w =>
      if h : v = w then isTrue (by rw [h])
      else isFalse (by intro he; cases he; exact h rfl)
  | .error v, .error w =>
      if h : v = w then isTrue (by rw [h])
      else isFalse (by intro he; cases he; exact h rfl)
  | .ok _, .error _ => isFalse (by intro he; cases he)
  | .error _, .ok _ => isFalse (by intro he; cases he)

example :
    analyze ⟨false, false, []⟩
      [⟨str "test", str "expect_stdout", str "FAILED"⟩]
      [(str "test", [str "TORTILLAS EXPECT: A", str "A",
                     str "TORTILLAS EXPECT: B"])]
      WdStatus.OK =
      Except.ok ⟨TestStatus.FAILED,
        [str "Expected output:  B", str "Actual output:\n```\nA\n```"],
        false⟩ := by decide

example :
    analyze ⟨false, false, []⟩
      [⟨str "test", str "exit_codes", str "FAILED"⟩]
      [(str "test", [str "1", str "2", str "3", str "4"])]
      WdStatus.OK =
      Except.ok ⟨TestStatus.FAILED,
        [str "Unexpected exit code 1", str "Unexpected exit code 2",
         str "Unexpected exit code 3", str "Unexpected exit code 4",
         str "Expected exit code(s): 0"],
        false⟩ := by decide

example :
    analyze ⟨false, false, []⟩
      [⟨str "panic", str "add_as_error", str "PANIC"⟩]
      [(str "panic", [str "bad opcode\n"])]
      WdStatus.OK =
      Except.ok ⟨TestStatus.PANIC, [str "bad opcode\n"], false⟩ := by decide

/-- An expectation whose stripped text occurs in no observed line. -/
def missPred (stdout : List (List Char)) (e : List Char) : Bool :=
  !(stdout.any fun got => containsSub got (pyStrip e))

theorem expectLoop_cons (stdout : List (List Char)) (r : TestResult)
    (m : Bool) (e : List Char) (rest : List (List Char)) :
    expectLoop stdout r m (e :: rest) =
      if stdout.any (fun got => containsSub got (pyStrip e)) then
        expectLoop stdout r m rest
      else
        expectLoop stdout
          { r with errors := r.errors ++ [str "Expected output: " ++ e] }
          true rest := rfl

theorem expectLoop_eq (stdout : List (List Char)) :
    ∀ (exps : List (List Char)) (r : TestResult) (m : Bool),
      expectLoop stdout r m exps =
        ({ r with errors := r.errors ++
            ((exps.filter (missPred stdout)).map
              fun e => str "Expected output: " ++ e) },
         m || exps.any (missPred stdout)) := by
  intro exps
  induction exps with
  | nil => intro r m; simp [expectLoop]
  | cons e rest ih =>
      intro r m
      by_cases h : stdout.any (fun got => containsSub got (pyStrip e)) = true
      · have hmiss : missPred stdout e = false := by
          simp only [missPred, h, Bool.not_true]
        rw [expectLoop_cons, if_pos h, ih]
        simp [List.filter_cons, List.any_cons, hmiss]
      · have hb : stdout.any (fun got => containsSub got (pyStrip e)) = false :=
          Bool.eq_false_iff.mpr h
        have hmiss : missPred stdout e = true := by
          simp only [missPred, hb, Bool.not_false]
        rw [expectLoop_cons, if_neg h, ih]
        simp [List.filter_cons, List.any_cons, hmiss, List.append_assoc]

/-- C1, counterexample: on the captured lines of scenario S3 the analyzer
does not produce the error `"Expected output: B"`; the code slices
expectations with `line[len(TORTILLAS_EXPECT_PREFIX)-1:]`, keeping the
marker's trailing space, so the produced error is
`"Expected output:  B"` (two spaces). -/
theorem check_expect_stdout_exact_errors_refuted :
    (check_expect_stdout ⟨TestStatus.SUCCESS, [], false⟩
        [str "TORTILLAS EXPECT: A", str "A", str "TORTILLAS EXPECT: B"]
        (some TestStatus.FAILED)).errors ≠
      [str "Expected output: B", str "Actual output:\n```\nA\n```"] := by
  decide

/-- C1, amended: captured lines beginning with `TORTILLAS EXPECT: ` are
expectations with only the first `len(prefix) - 1` characters removed
(the marker's trailing space is kept); all other captured lines are
observed output.  For each expectation `E`, in order, such that no
observed line contains `E` stripped of surrounding whitespace, the
analyzer appends exactly `"Expected output: " ++ E`; if any expectation
failed it additionally appends one fenced block with the observed lines
concatenated and applies the rule's `set_status`.  In particular the
captured lines of S3 yield exactly the errors `"Expected output:  B"`
(two spaces, from the kept marker space) and the fenced
`"Actual output:"` block, with status `FAILED`. -/
theorem check_expect_stdout_characterization :
    (∀ (r : TestResult) (logs : List (List Char)) (status : Option TestStatus),
      check_expect_stdout r logs status =
        (let stdout := logs.filter fun l => ¬ expectMarker.isPrefixOf l
         let expects := (logs.filter fun l => expectMarker.isPrefixOf l).map
           (List.drop (expectMarker.length - 1))
         if expects.any (missPred stdout) then
           setStatus
             { r with errors := r.errors ++
                 ((expects.filter (missPred stdout)).map
                   fun e => str "Expected output: " ++ e) ++
                 [str "Actual output:\n```\n" ++ stdout.flatten ++ str "\n```"] }
             status
         else r)) ∧
    analyze ⟨false, false, []⟩
        [⟨str "test", str "expect_stdout", str "FAILED"⟩]
        [(str "test", [str "TORTILLAS EXPECT: A", str "A",
                       str "TORTILLAS EXPECT: B"])]
        WdStatus.OK =
      Except.ok ⟨TestStatus.FAILED,
        [str "Expected output:  B", str "Actual output:\n```\nA\n```"],
        false⟩ := by
  constructor
  · intro r logs status
    simp only [check_expect_stdout, expectLoop_eq, Bool.false_or]
    by_cases h : ((logs.filter fun l => expectMarker.isPrefixOf l).map
        (List.drop (expectMarker.length - 1))).any
          (missPred (logs.filter fun l => ¬ expectMarker.isPrefixOf l)) = true
    · simp only [h, if_pos, List.append_assoc]
    · have hb := Bool.eq_false_iff.mpr h
      simp only [hb]
      have hf : ((logs.filter fun l => expectMarker.isPrefixOf l).map
          (List.drop (expectMarker.length - 1))).filter
            (missPred (logs.filter fun l => ¬ expectMarker.isPrefixOf l)) = [] := by
        rw [List.filter_eq_nil_iff]
        intro a ha hmiss
        exact h (List.any_eq_true.mpr ⟨a, ha, hmiss⟩)
      rw [hf]
      simp
  · decide

/-- The plain (enabled, no expected timeout) test spec of the analyzer
scenarios. -/
def specPlain : TestSpec := ⟨false, false, []⟩

/-- An analyze configuration whose first rule sets `PANIC` and whose
second rule sets `FAILED`. -/
def cfgPanicThenFailed : List AnalyzeConfigEntry :=
  [⟨str "a", str "add_as_error", str "PANIC"⟩,
   ⟨str "b", str "add_as_error", str "FAILED"⟩]

/-- C2, counterexample: `PANIC` is not sticky.  Under the configuration
`cfgPanicThenFailed`, log data with only the first rule's capture ends
with status `PANIC`, but adding a capture for the second rule makes the
final status `FAILED`: `_set_status` overwrites unconditionally, so the
later `add_as_error` rule downgrades `PANIC`. -/
theorem analyze_panic_not_sticky :
    analyze specPlain cfgPanicThenFailed
        [(str "a", [str "x"])] WdStatus.OK =
      Except.ok ⟨TestStatus.PANIC, [str "x"], false⟩ ∧
    analyze specPlain cfgPanicThenFailed
        [(str "a", [str "x"]), (str "b", [str "y"])] WdStatus.OK =
      Except.ok ⟨TestStatus.FAILED, [str "x", str "y"], false⟩ ∧
    TestStatus.FAILED ≠ TestStatus.PANIC := by
  decide

/-- C2, amended: `PANIC` is sticky only across `exit_codes` rules:
`check_exit_codes` returns the result unchanged whenever the status is
already `PANIC`, while any rule of the `add_as_error` family with a
non-`None` `set_status` and a non-empty capture list overwrites the
status unconditionally — including a `PANIC` status. -/
theorem panic_sticky_only_for_exit_codes :
    (∀ (r : TestResult) (codes : List (List Char)) (expect : List Int)
        (status : Option TestStatus),
      r.status = TestStatus.PANIC → check_exit_codes r codes expect status = r) ∧
    (∀ (r : TestResult) (logs : List (List Char)) (s : TestStatus),
      logs ≠ [] → (add_errors r logs (some s)).status = s) := by
  constructor
  · intro r codes expect status h
    unfold check_exit_codes
    rw [if_pos h]
  · intro r logs s h
    unfold add_errors
    rw [if_neg h]
    rfl

/-- Witness for the amended C2 theorem: a concrete `PANIC` result passes
through an `exit_codes` rule unchanged, and a concrete `add_as_error`
application with `set_status = FAILED` overwrites `PANIC`. -/
theorem panic_sticky_only_for_exit_codes_witness :
    check_exit_codes ⟨TestStatus.PANIC, [], false⟩ [str "7"] [0]
        (some TestStatus.FAILED) = ⟨TestStatus.PANIC, [], false⟩ ∧
      (add_errors ⟨TestStatus.PANIC, [], false⟩ [str "y"]
        (some TestStatus.FAILED)).status = TestStatus.FAILED :=
  ⟨panic_sticky_only_for_exit_codes.1 ⟨TestStatus.PANIC, [], false⟩
      [str "7"] [0] (some TestStatus.FAILED) rfl,
   panic_sticky_only_for_exit_codes.2 ⟨TestStatus.PANIC, [], false⟩
      [str "y"] TestStatus.FAILED (by decide)⟩

/-- A captured exit-code string that parses to a value outside the
expected codes. -/
def unexpectedB (expect : List Int) (s : List Char) : Bool :=
  match pyInt s with
  | some n => !(decide (n ∈ expect))
  | none => false

theorem exitLoop_cons (expect : List Int) (status : Option TestStatus)
    (r : TestResult) (u : Bool) (s : List Char) (rest : List (List Char)) :
    exitLoop expect status r u (s :: rest) =
      match pyInt s with
      | none =>
          { r with
            errors := r.errors ++ [str "Failed to parse exit code " ++ s],
            status := TestStatus.FAILED,
            retry := true }
      | some n =>
          if n ∈ expect then exitLoop expect status r u rest
          else
            exitLoop expect status
              { r with errors := r.errors ++ [str "Unexpected exit code " ++ s] }
              true rest := rfl

theorem exitLoop_all_parse (expect : List Int) (status : Option TestStatus) :
    ∀ (codes : List (List Char)) (r : TestResult) (u : Bool),
      (∀ s ∈ codes, (pyInt s).isSome) →
      exitLoop expect status r u codes =
        (if u || codes.any (unexpectedB expect) then
          setStatus
            { r with errors := r.errors ++
                ((codes.filter (unexpectedB expect)).map
                  fun s => str "Unexpected exit code " ++ s) ++
                [str "Expected exit code(s): " ++ joinCodes expect] }
            status
        else r) := by
  intro codes
  induction codes with
  | nil =>
      intro r u _
      match u with
      | true => simp [exitLoop]
      | false => simp [exitLoop]
  | cons s rest ih =>
      intro r u hparse
      have hs : (pyInt s).isSome := hparse s (by simp)
      rcases hn : pyInt s with _ | n
      · rw [hn] at hs; cases hs
      · rw [exitLoop_cons]
        simp only [hn]
        have hrest : ∀ t ∈ rest, (pyInt t).isSome :=
          fun t ht => hparse t (by simp [ht])
        by_cases hmem : n ∈ expect
        · have hu : unexpectedB expect s = false := by
            simp [unexpectedB, hn, hmem]
          rw [if_pos hmem, ih r u hrest]
          simp [List.filter_cons, List.any_cons, hu]
        · have hu : unexpectedB expect s = true := by
            simp [unexpectedB, hn, hmem]
          rw [if_neg hmem, ih _ true hrest]
          simp [List.filter_cons, List.any_cons, hu, List.append_assoc]

/-- C7: exit-code completeness.  When an `exit_codes` rule is applied
outside an existing `PANIC` status to a non-empty capture list of decimal
strings that all parse, and at least one parsed code is not among the
expected codes, the analyzer appends one `"Unexpected exit code N"` error
per unexpected capture (in order), then exactly one
`"Expected exit code(s): …"` error with the comma-joined expected codes,
and applies the rule's `set_status`. -/
theorem check_exit_codes_completeness (r : TestResult)
    (codes : List (List Char)) (expect : List Int)
    (status : Option TestStatus)
    (hp : r.status ≠ TestStatus.PANIC)
    (hne : codes ≠ [])
    (hparse : ∀ s ∈ codes, (pyInt s).isSome)
    (hunex : codes.any (unexpectedB expect) = true) :
    check_exit_codes r codes expect status =
      setStatus
        { r with errors := r.errors ++
            ((codes.filter (unexpectedB expect)).map
              fun s => str "Unexpected exit code " ++ s) ++
            [str "Expected exit code(s): " ++ joinCodes expect] }
        status := by
  unfold check_exit_codes
  rw [if_neg hp, if_neg hne, exitLoop_all_parse expect status codes r false hparse]
  simp [hunex]

/-- Witness for C7 at scenario S2: expected codes `{0}`, captured codes
`["1", "2", "3", "4"]`, `set_status = FAILED`, starting from the fresh
`SUCCESS` result; all hypotheses hold by computation, the errors list has
the four `Unexpected exit code` entries plus the one
`Expected exit code(s): 0` entry (length 5) and the status is `FAILED`. -/
theorem check_exit_codes_completeness_witness :
    (⟨TestStatus.SUCCESS, [], false⟩ : TestResult).status ≠ TestStatus.PANIC ∧
      check_exit_codes ⟨TestStatus.SUCCESS, [], false⟩
          [str "1", str "2", str "3", str "4"] [0] (some TestStatus.FAILED) =
        setStatus
          { (⟨TestStatus.SUCCESS, [], false⟩ : TestResult) with
              errors := ([] : List (List Char)) ++
                ((([str "1", str "2", str "3", str "4"]).filter
                  (unexpectedB [0])).map
                    fun s => str "Unexpected exit code " ++ s) ++
                [str "Expected exit code(s): " ++ joinCodes [0]] }
          (some TestStatus.FAILED) :=
  ⟨by decide,
   check_exit_codes_completeness ⟨TestStatus.SUCCESS, [], false⟩
     [str "1", str "2", str "3", str "4"] [0] (some TestStatus.FAILED)
     (by decide) (by decide) (by decide) (by decide)⟩

/-!
## `thread_callback` (`tortillas/test_runner.py`, lines 109-136)

`TestRunner.start` registers `thread_callback` as each worker's completion
callback.  The `TestResult` it manipulates is the class of
`tortillas/test_result.py`: its `Status` enum has exactly the members
`DISABLED`, `SUCCESS`, `PANIC`, `FAILED` (no `NOT_RUN`), its constructor
initialises `retry = False` and `errors = []` and assigns `status` only
when the spec is disabled (otherwise the attribute stays unset, modelled
as `none`), and it defines no attribute `panic` anywhere.  The callback
accesses `test_run.result.panic` when `retry` is set, which therefore
raises `AttributeError`; modelled with `Except`, as is the `KeyError` of
`running_tests.pop` and the `AttributeError` of an unset `status`. -/

/-- Model of `TestResult.Status` from `tortillas/test_result.py`. -/
inductive TRStatus where
  | DISABLED
  | SUCCESS
  | PANIC
  | FAILED
deriving DecidableEq, Repr

/-- Model of `TestResult` from `tortillas/test_result.py`: the fields its
constructor creates.  `status` is only assigned for disabled specs; no
`panic` attribute exists. -/
structure TestResultR where
  status : Option TRStatus
  errors : List (List Char)
  retry : Bool
deriving DecidableEq, Repr

/-- Model of `TestResult.__init__`: fresh errors, `retry = False`, and a status
only when the test spec is disabled. -/
def TestResultR.init (disabled : Bool) : TestResultR :=
  ⟨if disabled then some TRStatus.DISABLED else none, [], false⟩

/-- A `TestRun` as `thread_callback` sees it: its `repr` key and its
result. -/
structure TestRunM where
  name : List Char
  result : TestResultR
deriving DecidableEq, Repr

/-- The progress counters touched by the callback. -/
structure Counters where
  running : Int
  success : Int
  fail : Int
deriving DecidableEq, Repr

/-- The exceptions the callback can raise. -/
inductive CallbackErr where
  | keyError
  | attributeError (attr : List Char)
deriving DecidableEq, Repr

/-- Model of `thread_callback` from `tortillas/test_runner.py`: pop the run from
`running_tests` (`KeyError` when absent); on `retry` the code reads
`test_run.result.panic`, an attribute `TestResultR` does not define, so
the call raises `AttributeError` before any reset or re-enqueue; without
`retry` the run moves from the running counter to the success or fail
counter according to its status (reading an unset status also raises). -/
def thread_callback (running : List (List Char)) (queue : List TestRunM)
    (counters : Counters) (test_run : TestRunM) :
    Except CallbackErr (List (List Char) × List TestRunM × Counters) :=
  if test_run.name ∈ running then
    let running' := running.erase test_run.name
    if test_run.result.retry then
      Except.error (CallbackErr.attributeError (str "panic"))
    else
      match test_run.result.status with
      | none => Except.error (CallbackErr.attributeError (str "status"))
      | some s =>
          let counters' :=
            if s = TRStatus.SUCCESS then
              { counters with running := counters.running - 1,
                              success := counters.success + 1 }
            else
              { counters with running := counters.running - 1,
                              fail := counters.fail + 1 }
          Except.ok (running', queue, counters')
  else Except.error CallbackErr.keyError

/-- C9 (code bug): when a worker completes a run whose `retry` flag is
set — the exact situation the claim describes — `thread_callback` raises
`AttributeError` on `test_run.result.panic` (no `TestResult` class of the
code base defines `panic`), so the run is neither reset nor re-enqueued;
moreover `TestResult.Status` of `tortillas/test_result.py` has no
`NOT_RUN` member to reset to (third conjunct enumerates the members), and
a fresh `TestResult` leaves `status` unset rather than `NOT_RUN` (second
conjunct). -/
theorem thread_callback_retry_attribute_error :
    thread_callback [str "mult Run 1"] [] ⟨1, 0, 0⟩
        ⟨str "mult Run 1", ⟨none, [], true⟩⟩ =
      Except.error (CallbackErr.attributeError (str "panic")) ∧
    TestResultR.init false = ⟨none, [], false⟩ ∧
    ∀ s : TRStatus, s = TRStatus.DISABLED ∨ s = TRStatus.SUCCESS ∨
      s = TRStatus.PANIC ∨ s = TRStatus.FAILED := by
  refine ⟨by decide, by decide, ?_⟩
  intro s
  cases s
  · exact Or.inl rfl
  · exact Or.inr (Or.inl rfl)
  · exact Or.inr (Or.inr (Or.inl rfl))
  · exact Or.inr (Or.inr (Or.inr rfl))
